import Mathlib

/-!
Verification of two Qt Creator plugin fragments:
  * the IAR compiler-output parser (`IarParser` in
    `src/plugins/baremetal/iarewparser.cpp`, shipped here inside
    `src/plugins/cpaster/CodePaster.pluginspec`), and
  * the QML "Extract Component" quick-fix
    (`src/plugins/qmljseditor/qmljscomponentfromobjectdef.cpp`).

The C++ is shallowly embedded: `QString` values become Lean `String`
(the inputs of interest are ASCII, so UTF-16 unit counts and code-point
counts agree), the three `QRegularExpression` patterns are interpreted by
a small backtracking matcher with PCRE semantics (leftmost alternative
first, greedy quantifiers, full backtracking), the mutable parser object
becomes a state record threaded through the member functions, and the
`addTask` signal becomes an `output` list accumulated in that state.
-/

/-! ## QString helpers -/

/-- `QChar::isSpace` restricted to the ASCII whitespace the parser meets
(the PCRE class `\s`). -/
def qIsSpace (c : Char) : Bool :=
  c = ' ' || c = '\t' || c = '\n' || c = '\x0b' || c = '\x0c' || c = '\r'

/-- `IOutputParser::rightTrimmed`: drop trailing whitespace. -/
def rightTrimmed (s : String) : String :=
  String.mk ((s.data.reverse.dropWhile qIsSpace).reverse)

/-- `QString::trimmed`: drop leading and trailing whitespace. -/
def qTrimmed (s : String) : String :=
  String.mk (((s.data.dropWhile qIsSpace).reverse.dropWhile qIsSpace).reverse)

/-- A decimal digit (`\d` and the digits `QString::toInt` accepts). -/
def isDigitB (c : Char) : Bool := 48 ≤ c.toNat && c.toNat ≤ 57

/-- The value of a digit string, most significant first. -/
def digitsToNat (acc : Nat) : List Char → Nat
  | [] => acc
  | c :: cs => digitsToNat (acc * 10 + (c.toNat - 48)) cs

/-- `QString::toInt` as it is used on the captures of `(\d+)?`: a digit
string parses when its value fits an `int` (at most `INT_MAX`, 2^31-1;
the captures are unsigned, so `INT_MIN` cannot arise); anything else —
the empty capture of a group that did not participate, or a value out
of `int` range — yields 0. -/
def qToInt (s : String) : Int :=
  if s.data ≠ [] ∧ s.data.all isDigitB then
    if digitsToNat 0 s.data ≤ 2147483647 then (digitsToNat 0 s.data : Int) else 0
  else 0

/-- The `while (!parts.isEmpty()) out.append(parts.takeFirst())` loops:
concatenation of a list of strings in order. -/
def strConcat : List String → String
  | [] => ""
  | s :: rest => s ++ strConcat rest

/-- `QString::left(size() - 1)`. -/
def dropRight1 (s : String) : String := String.mk s.data.dropLast

/-- Whether `pat` is an initial segment of `cs`. -/
def listStartsWith : List Char → List Char → Bool
  | [], _ => true
  | _ :: _, [] => false
  | p :: ps, c :: cs => p = c && listStartsWith ps cs

/-- `QString::startsWith`. -/
def qStartsWith (s pre : String) : Bool := listStartsWith pre.data s.data

/-- `QString::endsWith`. -/
def qEndsWith (s suf : String) : Bool := listStartsWith suf.data.reverse s.data.reverse

/-- Worker for `qRemoveAll`, fuelled by the length of the subject: on a
match the pattern is deleted and scanning resumes at the same position
(as `QString::remove(const QString &)` does, re-searching from the
deletion index). -/
def removeAllGo (pat : List Char) : Nat → List Char → List Char
  | 0, s => s
  | _ + 1, [] => []
  | fuel + 1, c :: rest =>
    if listStartsWith pat (c :: rest) then
      removeAllGo pat fuel ((c :: rest).drop pat.length)
    else
      c :: removeAllGo pat fuel rest

/-- `QString::remove(const QString &str)`: delete every occurrence of
`pat`, scanning left to right and resuming at the deletion point. -/
def qRemoveAll (pat : String) (s : String) : String :=
  String.mk (removeAllGo pat.data s.data.length s.data)

/-! ## A small regular-expression engine

Just enough of PCRE for the three patterns of `IarParser::stdError`:
literal strings, the classes `.`, `\s`, `\d`, greedy `+` and `*` over a
class, alternation (first alternative preferred), greedy `?`, and
numbered capture groups.  The matcher is written in continuation style,
trying candidates in exactly PCRE's backtracking order; the overall
match is anchored at both ends, which is what `^ ... $`-shaped patterns
ask for. -/

inductive CClass where
  | dot
  | ws
  | digit
deriving DecidableEq, Repr

/-- Membership of a character in a class (`.` does not match a newline). -/
def CClass.mem : CClass → Char → Bool
  | .dot, c => c ≠ '\n'
  | .ws, c => qIsSpace c
  | .digit, c => isDigitB c

inductive RE where
  | str (s : String)
  | one (cl : CClass)
  | plusC (cl : CClass)
  | starC (cl : CClass)
  | alt (a b : RE)
  | seq (a b : RE)
  | opt (r : RE)
  | grp (i : Nat) (r : RE)
deriving Repr

/-- Capture environment: later captures of the same group shadow earlier
ones; a group that never captured reads back as the empty string, like
`QRegularExpressionMatch::captured`. -/
abbrev Groups := List (Nat × String)

def gset (i : Nat) (v : String) (g : Groups) : Groups := (i, v) :: g

def gget (i : Nat) (g : Groups) : String :=
  match List.find? (fun p => p.1 == i) g with
  | some p => p.2
  | none => ""

/-- Length of the maximal prefix of `cs` lying in the class `cl`. -/
def runLen (cl : CClass) : List Char → Nat
  | [] => 0
  | c :: cs => if cl.mem c then runLen cl cs + 1 else 0

/-- Greedy quantifier driver: try consuming `n` characters first, then
`n - 1`, … down to 0, handing the remainder to the continuation. -/
def tryDrops (n : Nat) (cs : List Char) (g : Groups)
    (k : List Char → Groups → Option Groups) : Option Groups :=
  match n with
  | 0 => k cs g
  | n + 1 =>
    match k (cs.drop (n + 1)) g with
    | some r => some r
    | none => tryDrops n cs g k

/-- Strip a literal from the front of the subject. -/
def listStrip : List Char → List Char → Option (List Char)
  | [], cs => some cs
  | _ :: _, [] => none
  | p :: ps, c :: cs => if p = c then listStrip ps cs else none

/-- The backtracking matcher.  `reM r cs g k` tries the ways `r` can
consume a prefix of `cs`, in PCRE preference order, extending the
capture environment `g`, and calls the continuation `k` on the rest. -/
def reM : RE → List Char → Groups → (List Char → Groups → Option Groups) → Option Groups
  | .str s, cs, g, k =>
    match listStrip s.data cs with
    | some cs' => k cs' g
    | none => none
  | .one cl, cs, g, k =>
    match cs with
    | [] => none
    | c :: cs' => if cl.mem c then k cs' g else none
  | .plusC cl, cs, g, k =>
    match cs with
    | [] => none
    | c :: cs' => if cl.mem c then tryDrops (runLen cl cs') cs' g k else none
  | .starC cl, cs, g, k => tryDrops (runLen cl cs) cs g k
  | .alt a b, cs, g, k =>
    match reM a cs g k with
    | some r => some r
    | none => reM b cs g k
  | .seq a b, cs, g, k => reM a cs g (fun cs' g' => reM b cs' g' k)
  | .opt r, cs, g, k =>
    match reM r cs g k with
    | some r' => some r'
    | none => k cs g
  | .grp i r, cs, g, k =>
    reM r cs g (fun cs' g' =>
      k cs' (gset i (String.mk (cs.take (cs.length - cs'.length))) g'))

/-- Anchored match of the whole subject, as the `^...$` patterns demand:
the final continuation accepts only when the subject is exhausted. -/
def reFullMatch (r : RE) (s : String) : Option Groups :=
  reM r s.data [] (fun cs g => if cs.isEmpty then some g else none)

/-- `^(Error|Fatal error)\[(.+)\]:\s(.+)\s\[(.+)$` -/
def iarRe1 : RE :=
  .seq (.grp 1 (.alt (.str "Error") (.str "Fatal error")))
    (.seq (.str "[") (.seq (.grp 2 (.plusC .dot)) (.seq (.str "]:")
      (.seq (.one .ws) (.seq (.grp 3 (.plusC .dot)) (.seq (.one .ws)
        (.seq (.str "[") (.grp 4 (.plusC .dot)))))))))

/-- `^.*(Error|Fatal error)\[(.+)\]:\s(.+)$` -/
def iarRe2 : RE :=
  .seq (.starC .dot) (.seq (.grp 1 (.alt (.str "Error") (.str "Fatal error")))
    (.seq (.str "[") (.seq (.grp 2 (.plusC .dot)) (.seq (.str "]:")
      (.seq (.one .ws) (.grp 3 (.plusC .dot)))))))

/-- `^"(.+)",(\d+)?\s+(Warning|Error|Fatal error)\[(.+)\].+$` -/
def iarRe3 : RE :=
  .seq (.str "\"") (.seq (.grp 1 (.plusC .dot)) (.seq (.str "\",")
    (.seq (.opt (.grp 2 (.plusC .digit))) (.seq (.plusC .ws)
      (.seq (.grp 3 (.alt (.str "Warning") (.alt (.str "Error") (.str "Fatal error"))))
        (.seq (.str "[") (.seq (.grp 4 (.plusC .dot)) (.seq (.str "]") (.plusC .dot)))))))))

/-! ## The task record and the IAR parser state -/

inductive TaskType where
  | Warning
  | Error
  | Unknown
deriving DecidableEq, Repr

/-- `ProjectExplorer::Constants::TASK_CATEGORY_COMPILE`. -/
def TASK_CATEGORY_COMPILE : String := "Task.Compile"

/-- `ProjectExplorer::Task` as the parser uses it.  `Utils::FileName` is
kept as the user-input string it was built from (`fromUserInput` is host
code outside this repository and is modelled as the identity on the
path text); `formats` records the `(start, length)` pairs of the
`QTextLayout::FormatRange`s attached by `amendDescription`. -/
structure IarTask where
  type : TaskType
  description : String
  file : String
  line : Int
  category : String
  formats : List (Nat × Nat)
deriving DecidableEq, Repr

/-- `static Task::TaskType taskType(const QString &msgType)`. -/
def taskType (msgType : String) : TaskType :=
  if msgType = "Warning" then .Warning
  else if msgType = "Error" || msgType = "Fatal error" then .Error
  else .Unknown

/-- The mutable state of `IarParser`, plus the two observable channels:
`output` collects the `addTask(task, linkedLines, skippedLines)`
emissions (the third argument is always 1 in this parser and is
dropped), and `childErr` / `childOut` collect the lines forwarded to the
base class `IOutputParser::stdError` / `stdOutput`. -/
structure IarParser where
  lastTask : Option IarTask
  lines : Nat
  filePathParts : List String
  descriptionParts : List String
  snippets : List String
  expectFilePath : Bool
  expectSnippet : Bool
  expectDescription : Bool
  output : List (IarTask × Nat)
  childErr : List String
  childOut : List String
deriving DecidableEq, Repr

/-- The freshly constructed parser.  The member initialisers live in
`iarewparser.h`, which is not among the repository's files; the values
are fixed by the unit tests in the same translation unit ("Details
warning" collects snippet lines before any task header, so
`m_expectSnippet` starts true). -/
def IarParser.initial : IarParser :=
  { lastTask := none
    lines := 0
    filePathParts := []
    descriptionParts := []
    snippets := []
    expectFilePath := false
    expectSnippet := true
    expectDescription := false
    output := []
    childErr := []
    childOut := [] }

/-- The snippet half of `IarParser::amendDescription`: each snippet is
appended after a newline, a monospace `FormatRange` is recorded, and
`m_lines` is incremented. -/
def appendSnippets : IarTask → Nat → List String → IarTask × Nat
  | t, lines, [] => (t, lines)
  | t, lines, snip :: rest =>
    let start := t.description.length + 1
    let desc := t.description ++ "\n" ++ snip
    appendSnippets
      { t with description := desc, formats := t.formats ++ [(start, desc.length + 1)] }
      (lines + 1) rest

/-- `IarParser::amendDescription` acting on the task being flushed:
first the pending description parts are appended in order, then the
snippets. -/
def amendDescriptionT (t : IarTask) (descParts snippets : List String) (lines : Nat) :
    IarTask × Nat :=
  appendSnippets { t with description := t.description ++ strConcat descParts } lines snippets

/-- `IarParser::amendFilePath`: nothing happens on an empty part list;
otherwise the parts are trimmed as they are taken and concatenated into
the task's file path. -/
def amendFilePathT (t : IarTask) (fileParts : List String) : IarTask :=
  if fileParts.isEmpty then t
  else { t with file := strConcat (fileParts.map qTrimmed) }

/-- `IarParser::doFlush`: a null pending task means no work; otherwise
the description and file path are amended, the expectation flags reset,
the task emitted through `addTask` with the amended line count, and the
pending slot cleared. -/
def IarParser.doFlush (p : IarParser) : IarParser :=
  match p.lastTask with
  | none => p
  | some t0 =>
    let r := amendDescriptionT t0 p.descriptionParts p.snippets p.lines
    let t2 := amendFilePathT r.1 p.filePathParts
    { p with
      lastTask := none
      lines := 0
      descriptionParts := []
      snippets := []
      filePathParts := []
      expectSnippet := true
      expectFilePath := false
      expectDescription := false
      output := p.output ++ [(t2, r.2)] }

/-- `IarParser::newTask`: flush whatever is pending, then install the
argument with a line count of 1. -/
def IarParser.newTask (p : IarParser) (t : IarTask) : IarParser :=
  let p' := p.doFlush
  { p' with lastTask := some t, lines := 1 }

/-- The tail of `IarParser::stdError` when no pattern matched: the
empty-line flush, the bail-out on unindented lines, and the three
expectation branches, with the fall-through paths ending in a flush. -/
def IarParser.contStep (p : IarParser) (lne : String) : IarParser :=
  if lne = "" then
    p.doFlush
  else if !qStartsWith lne " " then
    p
  else if p.expectFilePath then
    if qEndsWith lne "]" then
      IarParser.doFlush { p with filePathParts := p.filePathParts ++ [dropRight1 lne] }
    else
      { p with filePathParts := p.filePathParts ++ [lne] }
  else if p.expectSnippet then
    if !qEndsWith lne "Fatal error detected, aborting." then
      { p with snippets := p.snippets ++ [lne] }
    else
      p.doFlush
  else if p.expectDescription then
    if !qStartsWith lne "            " then
      { p with descriptionParts := p.descriptionParts ++ [qTrimmed lne] }
    else
      p.doFlush
  else
    p.doFlush

/-- The body of `IarParser::stdError` after the base-class forwarding:
the three regular expressions are tried in order, then the
continuation-line state machine runs, and the fall-through paths flush. -/
def IarParser.stdErrProcess (p : IarParser) (line : String) : IarParser :=
  let lne := rightTrimmed line
  match reFullMatch iarRe1 lne with
  | some g =>
    let task : IarTask :=
      { type := taskType (gget 1 g)
        description := "[" ++ gget 2 g ++ "]: " ++ gget 3 g
        file := ""
        line := -1
        category := TASK_CATEGORY_COMPILE
        formats := [] }
    let p' := p.newTask task
    let firstPart := qRemoveAll "referenced from " (gget 4 g)
    { p' with
      filePathParts := p'.filePathParts ++ [firstPart]
      expectFilePath := true
      expectSnippet := false }
  | none =>
  match reFullMatch iarRe2 lne with
  | some g =>
    let task : IarTask :=
      { type := taskType (gget 1 g)
        description := "[" ++ gget 2 g ++ "]: " ++ gget 3 g
        file := ""
        line := -1
        category := TASK_CATEGORY_COMPILE
        formats := [] }
    let p' := p.newTask task
    { p' with
      expectSnippet := true
      expectFilePath := false
      expectDescription := false }
  | none =>
  match reFullMatch iarRe3 lne with
  | some g =>
    let task : IarTask :=
      { type := taskType (gget 3 g)
        description := ""
        file := gget 1 g
        line := qToInt (gget 2 g)
        category := TASK_CATEGORY_COMPILE
        formats := [] }
    let p' := p.newTask task
    { p' with
      descriptionParts := p'.descriptionParts ++ ["[" ++ gget 4 g ++ "]: "]
      expectDescription := true
      expectSnippet := false
      expectFilePath := false }
  | none => p.contStep lne

/-- `IarParser::stdError`: forward the raw line to the base class, then
run the matching body. -/
def IarParser.stdError (p : IarParser) (line : String) : IarParser :=
  IarParser.stdErrProcess { p with childErr := p.childErr ++ [line] } line

/-- The body of `IarParser::stdOutput` after the base-class forwarding. -/
def IarParser.stdOutProcess (p : IarParser) (line : String) : IarParser :=
  if !qStartsWith (rightTrimmed line) "Error in command line" then
    p
  else
    (p.newTask
      { type := .Error
        description := qTrimmed line
        file := ""
        line := -1
        category := TASK_CATEGORY_COMPILE
        formats := [] }).doFlush

/-- `IarParser::stdOutput`: forward the raw line to the base class, then
run the matching body. -/
def IarParser.stdOutput (p : IarParser) (line : String) : IarParser :=
  IarParser.stdOutProcess { p with childOut := p.childOut ++ [line] } line

/-! ## The QML "Extract Component" quick-fix

The slice of the QML AST that `qmljscomponentfromobjectdef.cpp` touches.
Pointers that the code tests for null become `Option`; pointer fields it
dereferences without a check (`idExp->name`, `strExp->value`) become
plain fields.  `state.semanticInfo().astPath(pos)` is a host query; the
quick-fix is therefore modelled as a function of the path it returns,
and an `Operation` is represented by the object definition it is built
from. -/

namespace QmlJS

/-- `UiQualifiedId`: a linked list of name components, each possibly
null. -/
inductive UiQualifiedId where
  | mk (name : Option String) (next : Option UiQualifiedId)

/-- The expressions `getIdProperty` distinguishes. -/
inductive QmlExpr where
  | ident (name : String)
  | strLit (value : String)
  | otherExpr

/-- The statements `getIdProperty` distinguishes: only an
`ExpressionStatement` survives the cast. -/
inductive QmlStmt where
  | exprStmt (e : QmlExpr)
  | otherStmt

/-- A `UiObjectMember`: either a `UiScriptBinding` (with its possibly
null qualified id and possibly null statement) or any other member
kind, which the `cast<UiScriptBinding*>` filters out. -/
inductive UiObjectMember where
  | scriptBinding (qualifiedId : Option UiQualifiedId) (statement : Option QmlStmt)
  | otherMember

structure UiObjectInitializer where
  members : List UiObjectMember

structure UiObjectDefinition where
  initializer : Option UiObjectInitializer

/-- The node kinds `ComponentFromObjectDef::match` distinguishes on the
AST path. -/
inductive Node where
  | objDef (d : UiObjectDefinition)
  | program
  | otherNode

/-- The member loop of `getIdProperty`: the `continue`s of the source
become recursive calls on the tail. -/
def getIdLoop : List UiObjectMember → String
  | [] => ""
  | m :: rest =>
    match m with
    | .scriptBinding qid stmt =>
      match qid with
      | none => getIdLoop rest
      | some (.mk name next) =>
        match next with
        | some _ => getIdLoop rest
        | none =>
          match name with
          | none => getIdLoop rest
          | some nm =>
            if nm = "id" then
              match stmt with
              | some (.exprStmt e) =>
                match e with
                | .ident n => n
                | .strLit v => v
                | .otherExpr => getIdLoop rest
              | _ => getIdLoop rest
            else getIdLoop rest
    | .otherMember => getIdLoop rest

/-- `static QString getIdProperty(UiObjectDefinition *def)`. -/
def getIdProperty : Option UiObjectDefinition → String
  | none => ""
  | some d =>
    match d.initializer with
    | none => ""
    | some ini => getIdLoop ini.members

/-- The `cast<UiProgram*>` test. -/
def Node.isProgramB : Node → Bool
  | .program => true
  | _ => false

/-- `cast<UiProgram*>(path.at(i - 1))` as a Boolean on the path. -/
def prevIsProgram (path : List Node) (i : Nat) : Bool :=
  match path.get? (i - 1) with
  | some n => n.isProgramB
  | none => false

/-- The loop of `ComponentFromObjectDef::match`, counting `i` down from
`path.size() - 1`; the argument is the number of indices still to
visit, so `matchGo path (i + 1)` inspects index `i`.  On the first hit
an `Operation` built from that object definition is returned. -/
def matchGo (path : List Node) : Nat → List UiObjectDefinition
  | 0 => []
  | i + 1 =>
    match path.get? i with
    | some (.objDef d) =>
      if 0 < i && !prevIsProgram path i && !(getIdProperty (some d) = "") then [d]
      else matchGo path i
    | _ => matchGo path i

/-- `ComponentFromObjectDef::match`, as a function of the AST path at
the cursor position (`match` itself is a Lean keyword, hence the
name). -/
def matchOps (path : List Node) : List UiObjectDefinition :=
  matchGo path path.length

end QmlJS

/-! ## Basic lemmas about the parser state machine -/

theorem doFlush_childErr (p : IarParser) : p.doFlush.childErr = p.childErr := by
  cases p with
  | mk lt ln fpp dp sn ef es ed out ce co => cases lt <;> rfl

theorem doFlush_childOut (p : IarParser) : p.doFlush.childOut = p.childOut := by
  cases p with
  | mk lt ln fpp dp sn ef es ed out ce co => cases lt <;> rfl

theorem doFlush_lastTask (p : IarParser) : p.doFlush.lastTask = none := by
  cases p with
  | mk lt ln fpp dp sn ef es ed out ce co => cases lt <;> rfl

theorem doFlush_of_none (p : IarParser) (h : p.lastTask = none) : p.doFlush = p := by
  simp [IarParser.doFlush, h]

theorem doFlush_of_some (p : IarParser) (t : IarTask) (h : p.lastTask = some t) :
    p.doFlush =
      { p with
        lastTask := none
        lines := 0
        descriptionParts := []
        snippets := []
        filePathParts := []
        expectSnippet := true
        expectFilePath := false
        expectDescription := false
        output := p.output ++
          [(amendFilePathT (amendDescriptionT t p.descriptionParts p.snippets p.lines).1
              p.filePathParts,
            (amendDescriptionT t p.descriptionParts p.snippets p.lines).2)] } := by
  simp [IarParser.doFlush, h]

theorem newTask_childErr (p : IarParser) (t : IarTask) :
    (p.newTask t).childErr = p.childErr := by
  simp [IarParser.newTask, doFlush_childErr]

theorem newTask_childOut (p : IarParser) (t : IarTask) :
    (p.newTask t).childOut = p.childOut := by
  simp [IarParser.newTask, doFlush_childOut]

theorem contStep_childErr (p : IarParser) (lne : String) :
    (p.contStep lne).childErr = p.childErr := by
  unfold IarParser.contStep
  repeat' split
  all_goals first
    | rfl
    | exact doFlush_childErr _

theorem contStep_childOut (p : IarParser) (lne : String) :
    (p.contStep lne).childOut = p.childOut := by
  unfold IarParser.contStep
  repeat' split
  all_goals first
    | rfl
    | exact doFlush_childOut _

theorem stdErrProcess_childErr (p : IarParser) (l : String) :
    (p.stdErrProcess l).childErr = p.childErr := by
  unfold IarParser.stdErrProcess
  rcases h1 : reFullMatch iarRe1 (rightTrimmed l) with _ | g
  · rcases h2 : reFullMatch iarRe2 (rightTrimmed l) with _ | g
    · rcases h3 : reFullMatch iarRe3 (rightTrimmed l) with _ | g
      · simp only [h1, h2, h3]
        exact contStep_childErr p _
      · simp [h1, h2, h3, newTask_childErr]
    · simp [h1, h2, newTask_childErr]
  · simp [h1, newTask_childErr]

theorem stdErrProcess_childOut (p : IarParser) (l : String) :
    (p.stdErrProcess l).childOut = p.childOut := by
  unfold IarParser.stdErrProcess
  rcases h1 : reFullMatch iarRe1 (rightTrimmed l) with _ | g
  · rcases h2 : reFullMatch iarRe2 (rightTrimmed l) with _ | g
    · rcases h3 : reFullMatch iarRe3 (rightTrimmed l) with _ | g
      · simp only [h1, h2, h3]
        exact contStep_childOut p _
      · simp [h1, h2, h3, newTask_childOut]
    · simp [h1, h2, newTask_childOut]
  · simp [h1, newTask_childOut]

theorem stdOutProcess_childErr (p : IarParser) (l : String) :
    (p.stdOutProcess l).childErr = p.childErr := by
  unfold IarParser.stdOutProcess
  split
  · rfl
  · simp [doFlush_childErr, newTask_childErr]

theorem stdOutProcess_childOut (p : IarParser) (l : String) :
    (p.stdOutProcess l).childOut = p.childOut := by
  unfold IarParser.stdOutProcess
  split
  · rfl
  · simp [doFlush_childOut, newTask_childOut]

/-! ## C2: the severity classification -/

/-- C2: `taskType` returns `Warning` exactly for `"Warning"`, `Error`
exactly for `"Error"` or `"Fatal error"`, and `Unknown` for every other
string. -/
theorem taskType_classification (s : String) :
    (taskType s = .Warning ↔ s = "Warning") ∧
    (taskType s = .Error ↔ (s = "Error" ∨ s = "Fatal error")) ∧
    (s ≠ "Warning" ∧ s ≠ "Error" ∧ s ≠ "Fatal error" → taskType s = .Unknown) := by
  unfold taskType
  split_ifs with h1 h2 <;> simp_all
  exact fun h => h2.resolve_left h

/-! ## C7: unconditional pass-through of the raw stream -/

/-- C7: both `stdError` and `stdOutput` forward the original, unmodified
line to the underlying parser chain, regardless of whether any pattern
or state branch recognises it, and neither touches the other channel. -/
theorem stdError_stdOutput_passthrough (p : IarParser) (line : String) :
    (p.stdError line).childErr = p.childErr ++ [line] ∧
    (p.stdError line).childOut = p.childOut ∧
    (p.stdOutput line).childOut = p.childOut ++ [line] ∧
    (p.stdOutput line).childErr = p.childErr := by
  refine ⟨?_, ?_, ?_, ?_⟩
  · rw [IarParser.stdError, stdErrProcess_childErr]
  · rw [IarParser.stdError, stdErrProcess_childOut]
  · rw [IarParser.stdOutput, stdOutProcess_childOut]
  · rw [IarParser.stdOutput, stdOutProcess_childErr]

/-! ## C8: `doFlush` is idempotent and `newTask` loses nothing -/

/-- The only statement that makes `m_lines` nonzero is `newTask`, which
also sets `m_lastTask`; so on every state the parser can actually be in,
a null pending task comes with a zero line counter.  This is the
invariant under which C8's "the line counter is 0 after any flush"
holds; the theorems below show every entry point preserves it. -/
def IarParser.linesInv (p : IarParser) : Prop := p.lastTask = none → p.lines = 0

theorem linesInv_initial : IarParser.initial.linesInv := by
  intro _; rfl

theorem linesInv_doFlush (p : IarParser) (h : p.linesInv) : p.doFlush.linesInv := by
  intro hn
  cases hp : p.lastTask with
  | none => rw [doFlush_of_none p hp]; exact h hp
  | some t => rw [doFlush_of_some p t hp]

theorem linesInv_newTask (p : IarParser) (t : IarTask) : (p.newTask t).linesInv := by
  intro h
  simp [IarParser.newTask] at h

theorem linesInv_contStep (p : IarParser) (lne : String) (h : p.linesInv) :
    (p.contStep lne).linesInv := by
  unfold IarParser.contStep
  repeat' split
  all_goals first
    | exact linesInv_doFlush _ h
    | exact h

theorem linesInv_stdErrProcess (p : IarParser) (l : String) (h : p.linesInv) :
    (p.stdErrProcess l).linesInv := by
  unfold IarParser.stdErrProcess
  rcases h1 : reFullMatch iarRe1 (rightTrimmed l) with _ | g
  · rcases h2 : reFullMatch iarRe2 (rightTrimmed l) with _ | g
    · rcases h3 : reFullMatch iarRe3 (rightTrimmed l) with _ | g
      · simp only [h1, h2, h3]
        exact linesInv_contStep p _ h
      · simp only [h1, h2, h3]
        intro hn
        simp [IarParser.newTask] at hn
    · simp only [h1, h2]
      intro hn
      simp [IarParser.newTask] at hn
  · simp only [h1]
    intro hn
    simp [IarParser.newTask] at hn

theorem linesInv_stdError (p : IarParser) (l : String) (h : p.linesInv) :
    (p.stdError l).linesInv :=
  linesInv_stdErrProcess _ l h

theorem linesInv_stdOutput (p : IarParser) (l : String) (h : p.linesInv) :
    (p.stdOutput l).linesInv := by
  rw [IarParser.stdOutput]
  unfold IarParser.stdOutProcess
  split
  · exact h
  · exact linesInv_doFlush _ (linesInv_newTask _ _)

/-- C8: a flush of a null pending task changes nothing; any flush leaves
a null pending task (and, on the states the parser actually reaches,
a zero line counter, cf. `IarParser.linesInv`), so an immediately
repeated `doFlush` emits nothing; `newTask` installs its argument only
after flushing, so a pending task is emitted into the output, never
discarded. -/
theorem doFlush_idempotent (p : IarParser) (t t0 : IarTask) :
    (p.lastTask = none → p.doFlush = p) ∧
    p.doFlush.doFlush = p.doFlush ∧
    p.doFlush.lastTask = none ∧
    (p.linesInv → p.doFlush.lines = 0) ∧
    (p.newTask t).lastTask = some t ∧
    (p.newTask t).output = p.doFlush.output ∧
    (p.lastTask = some t0 →
      p.doFlush.output = p.output ++
        [(amendFilePathT (amendDescriptionT t0 p.descriptionParts p.snippets p.lines).1
            p.filePathParts,
          (amendDescriptionT t0 p.descriptionParts p.snippets p.lines).2)]) := by
  refine ⟨doFlush_of_none p, doFlush_of_none _ (doFlush_lastTask p), doFlush_lastTask p,
    fun h => linesInv_doFlush p h (doFlush_lastTask p), rfl, rfl, fun h => ?_⟩
  rw [doFlush_of_some p t0 h]

/-! ## C6: every emitted task carries the compile category -/

/-- Every task already emitted, and the pending one if any, carries
`TASK_CATEGORY_COMPILE`. -/
def compileOnly (p : IarParser) : Prop :=
  (∀ e ∈ p.output, (e : IarTask × Nat).1.category = TASK_CATEGORY_COMPILE) ∧
  (∀ t, p.lastTask = some t → t.category = TASK_CATEGORY_COMPILE)

theorem appendSnippets_category (t : IarTask) (n : Nat) (l : List String) :
    (appendSnippets t n l).1.category = t.category := by
  induction l generalizing t n with
  | nil => rfl
  | cons s rest ih => simpa [appendSnippets] using ih _ _

theorem amendDescriptionT_category (t : IarTask) (dp sn : List String) (n : Nat) :
    (amendDescriptionT t dp sn n).1.category = t.category := by
  simpa [amendDescriptionT] using appendSnippets_category _ n sn

theorem amendFilePathT_category (t : IarTask) (fp : List String) :
    (amendFilePathT t fp).category = t.category := by
  unfold amendFilePathT
  split <;> rfl

theorem compileOnly_doFlush (p : IarParser) (h : compileOnly p) : compileOnly p.doFlush := by
  cases hp : p.lastTask with
  | none => rw [doFlush_of_none p hp]; exact h
  | some t0 =>
    rw [doFlush_of_some p t0 hp]
    refine ⟨fun e he => ?_, fun t ht => by simp at ht⟩
    rcases List.mem_append.1 he with hl | hr
    · exact h.1 e hl
    · simp only [List.mem_singleton] at hr
      subst hr
      rw [amendFilePathT_category, amendDescriptionT_category]
      exact h.2 t0 hp

theorem compileOnly_newTask (p : IarParser) (t : IarTask) (h : compileOnly p)
    (ht : t.category = TASK_CATEGORY_COMPILE) : compileOnly (p.newTask t) := by
  refine ⟨fun e he => (compileOnly_doFlush p h).1 e he, fun t' ht' => ?_⟩
  simp [IarParser.newTask] at ht'
  subst ht'
  exact ht

theorem compileOnly_contStep (p : IarParser) (lne : String) (h : compileOnly p) :
    compileOnly (p.contStep lne) := by
  unfold IarParser.contStep
  repeat' split
  all_goals first
    | exact compileOnly_doFlush _ h
    | exact h

theorem compileOnly_stdErrProcess (p : IarParser) (l : String) (h : compileOnly p) :
    compileOnly (p.stdErrProcess l) := by
  unfold IarParser.stdErrProcess
  rcases h1 : reFullMatch iarRe1 (rightTrimmed l) with _ | g
  · rcases h2 : reFullMatch iarRe2 (rightTrimmed l) with _ | g
    · rcases h3 : reFullMatch iarRe3 (rightTrimmed l) with _ | g
      · simp only [h1, h2, h3]
        exact compileOnly_contStep p _ h
      · simp only [h1, h2, h3]
        have hn := compileOnly_newTask p
          { type := taskType (gget 3 g), description := "", file := gget 1 g,
            line := qToInt (gget 2 g), category := TASK_CATEGORY_COMPILE, formats := [] } h rfl
        exact ⟨hn.1, fun t' ht' => hn.2 t' ht'⟩
    · simp only [h1, h2]
      have hn := compileOnly_newTask p
        { type := taskType (gget 1 g), description := "[" ++ gget 2 g ++ "]: " ++ gget 3 g,
          file := "", line := -1, category := TASK_CATEGORY_COMPILE, formats := [] } h rfl
      exact ⟨hn.1, fun t' ht' => hn.2 t' ht'⟩
  · simp only [h1]
    have hn := compileOnly_newTask p
      { type := taskType (gget 1 g), description := "[" ++ gget 2 g ++ "]: " ++ gget 3 g,
        file := "", line := -1, category := TASK_CATEGORY_COMPILE, formats := [] } h rfl
    exact ⟨hn.1, fun t' ht' => hn.2 t' ht'⟩

theorem compileOnly_stdOutProcess (p : IarParser) (l : String) (h : compileOnly p) :
    compileOnly (p.stdOutProcess l) := by
  unfold IarParser.stdOutProcess
  split
  · exact h
  · exact compileOnly_doFlush _ (compileOnly_newTask p _ h rfl)

/-- C6: from a state all of whose tasks (emitted and pending) carry
`TASK_CATEGORY_COMPILE` — the fresh parser in particular — every task
any branch of `stdError` or `stdOutput` ever hands to `addTask` carries
`TASK_CATEGORY_COMPILE`. -/
theorem addTask_category_compile (p : IarParser) (l : String) :
    compileOnly IarParser.initial ∧
    (compileOnly p → compileOnly (p.stdError l) ∧ compileOnly (p.stdOutput l)) := by
  refine ⟨⟨fun e he => by simp [IarParser.initial] at he, fun t ht => by
    simp [IarParser.initial] at ht⟩, fun h => ⟨?_, ?_⟩⟩
  · exact compileOnly_stdErrProcess _ l h
  · exact compileOnly_stdOutProcess _ l h

/-! ## C5: stdout recognises exactly "Error in command line" -/

theorem strAppend_empty (s : String) : s ++ "" = s := by
  cases s with
  | mk d => exact congrArg String.mk (List.append_nil d)

theorem empty_strAppend (s : String) : "" ++ s = s := by
  cases s with
  | mk d => rfl

theorem strAppend_assoc (a b c : String) : a ++ b ++ c = a ++ (b ++ c) := by
  cases a with
  | mk da =>
    cases b with
    | mk db =>
      cases c with
      | mk dc => exact congrArg String.mk (List.append_assoc da db dc)

theorem doFlush_output_mono (p : IarParser) :
    p.output.length ≤ p.doFlush.output.length := by
  cases hp : p.lastTask with
  | none => rw [doFlush_of_none p hp]
  | some t => rw [doFlush_of_some p t hp]; simp

/-- C5: a stdout line produces a task exactly when its right-trimmed
form starts with "Error in command line": on any other line the parser
state is untouched (beyond the unconditional forwarding), and on a
matching line a task of type `Error` with the trimmed line as
description, no file, and line number −1 is created and immediately
flushed (stated on a quiescent state: nothing pending and no leftover
continuation parts, which is how the parser stands after any complete
diagnostic). -/
theorem stdOutput_command_line_error (p : IarParser) (line : String) :
    (¬ qStartsWith (rightTrimmed line) "Error in command line" = true →
      p.stdOutput line = { p with childOut := p.childOut ++ [line] }) ∧
    (qStartsWith (rightTrimmed line) "Error in command line" = true →
      p.output.length < (p.stdOutput line).output.length) ∧
    (qStartsWith (rightTrimmed line) "Error in command line" = true →
      p.lastTask = none → p.descriptionParts = [] → p.snippets = [] → p.filePathParts = [] →
      p.stdOutput line =
        { p with
          childOut := p.childOut ++ [line]
          lines := 0
          expectSnippet := true
          expectFilePath := false
          expectDescription := false
          output := p.output ++
            [({ type := .Error, description := qTrimmed line, file := "", line := -1,
                category := TASK_CATEGORY_COMPILE, formats := [] }, 1)] }) := by
  refine ⟨fun hn => ?_, fun hy => ?_, fun hy h0 h1 h2 h3 => ?_⟩
  · rw [IarParser.stdOutput]
    unfold IarParser.stdOutProcess
    simp [hn]
  · rw [IarParser.stdOutput]
    unfold IarParser.stdOutProcess
    simp only [hy, Bool.not_true, Bool.false_eq_true, if_false]
    set q : IarParser := { p with childOut := p.childOut ++ [line] } with hq
    set task : IarTask :=
      { type := .Error, description := qTrimmed line, file := "", line := -1,
        category := TASK_CATEGORY_COMPILE, formats := [] } with htask
    have hsome : (q.newTask task).lastTask = some task := rfl
    rw [doFlush_of_some _ task hsome]
    have : q.output.length ≤ (q.newTask task).output.length := doFlush_output_mono q
    simpa using Nat.lt_succ_of_le this
  · rw [IarParser.stdOutput]
    unfold IarParser.stdOutProcess
    simp only [hy, Bool.not_true, Bool.false_eq_true, if_false]
    have hqnone : ({ p with childOut := p.childOut ++ [line] } : IarParser).lastTask = none :=
      h0
    rw [IarParser.newTask, doFlush_of_none _ hqnone, doFlush_of_some _ _ rfl]
    simp [h1, h2, h3, amendDescriptionT, appendSnippets, amendFilePathT, strConcat,
      strAppend_empty]
    exact h0.symm

/-! ## C1: the full "file",line Type[code]: diagnostic -/

/-- A stderr line matching the third pattern, hitting none of the
earlier two, on a state with nothing pending: a fresh task with the
captured file, line number and severity is installed, the `[code]: `
prefix is queued as the first description part, and the parser starts
expecting description lines. -/
theorem stdError_re3_header (p : IarParser) (line : String) (g : Groups)
    (h1 : reFullMatch iarRe1 (rightTrimmed line) = none)
    (h2 : reFullMatch iarRe2 (rightTrimmed line) = none)
    (h3 : reFullMatch iarRe3 (rightTrimmed line) = some g)
    (hnone : p.lastTask = none) :
    p.stdError line =
      { p with
        childErr := p.childErr ++ [line]
        lastTask := some { type := taskType (gget 3 g), description := "",
                           file := gget 1 g, line := qToInt (gget 2 g),
                           category := TASK_CATEGORY_COMPILE, formats := [] }
        lines := 1
        descriptionParts := p.descriptionParts ++ ["[" ++ gget 4 g ++ "]: "]
        expectDescription := true
        expectSnippet := false
        expectFilePath := false } := by
  rw [IarParser.stdError]
  unfold IarParser.stdErrProcess
  simp only [h1, h2, h3]
  have hqnone : ({ p with childErr := p.childErr ++ [line] } : IarParser).lastTask = none :=
    hnone
  rw [IarParser.newTask, doFlush_of_none _ hqnone]

/-- A stderr line matching the first pattern on a state with nothing
pending: a fresh task with the bracketed description is installed and
the first file-path part (with "referenced from " removed) is queued. -/
theorem stdError_re1_header (p : IarParser) (line : String) (g : Groups)
    (h1 : reFullMatch iarRe1 (rightTrimmed line) = some g)
    (hnone : p.lastTask = none) :
    p.stdError line =
      { p with
        childErr := p.childErr ++ [line]
        lastTask := some { type := taskType (gget 1 g),
                           description := "[" ++ gget 2 g ++ "]: " ++ gget 3 g,
                           file := "", line := -1,
                           category := TASK_CATEGORY_COMPILE, formats := [] }
        lines := 1
        filePathParts := p.filePathParts ++ [qRemoveAll "referenced from " (gget 4 g)]
        expectFilePath := true
        expectSnippet := false } := by
  rw [IarParser.stdError]
  unfold IarParser.stdErrProcess
  simp only [h1]
  have hqnone : ({ p with childErr := p.childErr ++ [line] } : IarParser).lastTask = none :=
    hnone
  rw [IarParser.newTask, doFlush_of_none _ hqnone]

/-- The conditions under which a continuation line is consumed by the
`m_expectDescription` branch: no pattern matches, the right-trimmed
line is a nonempty indented line, and it does not carry the 12-space
indentation that ends the description. -/
def ContDescLine (c : String) : Prop :=
  reFullMatch iarRe1 (rightTrimmed c) = none ∧
  reFullMatch iarRe2 (rightTrimmed c) = none ∧
  reFullMatch iarRe3 (rightTrimmed c) = none ∧
  ¬ rightTrimmed c = "" ∧
  qStartsWith (rightTrimmed c) " " = true ∧
  ¬ qStartsWith (rightTrimmed c) "            " = true

theorem contDesc_step (p : IarParser) (c : String) (hc : ContDescLine c)
    (hef : p.expectFilePath = false) (hes : p.expectSnippet = false)
    (hed : p.expectDescription = true) :
    p.stdError c =
      { p with
        childErr := p.childErr ++ [c]
        descriptionParts := p.descriptionParts ++ [qTrimmed (rightTrimmed c)] } := by
  obtain ⟨hr1, hr2, hr3, hne, hsp, h12⟩ := hc
  rw [IarParser.stdError]
  unfold IarParser.stdErrProcess
  simp only [hr1, hr2, hr3]
  unfold IarParser.contStep
  simp [hne, hsp, hef, hes, hed, h12]

theorem contDesc_fold (p : IarParser) (cs : List String)
    (hcs : ∀ c ∈ cs, ContDescLine c)
    (hef : p.expectFilePath = false) (hes : p.expectSnippet = false)
    (hed : p.expectDescription = true) :
    List.foldl IarParser.stdError p cs =
      { p with
        childErr := p.childErr ++ cs
        descriptionParts :=
          p.descriptionParts ++ cs.map (fun c => qTrimmed (rightTrimmed c)) } := by
  induction cs generalizing p with
  | nil => simp
  | cons c rest ih =>
    rw [List.foldl_cons, contDesc_step p c (hcs c (by simp)) hef hes hed]
    rw [ih ({ p with
          childErr := p.childErr ++ [c]
          descriptionParts := p.descriptionParts ++ [qTrimmed (rightTrimmed c)] })
        (fun x hx => hcs x (by simp [hx])) hef hes hed]
    simp

/-- An empty stderr line falls through every branch and flushes. -/
theorem stdError_empty_flush (p : IarParser) :
    p.stdError "" = IarParser.doFlush { p with childErr := p.childErr ++ [""] } := by
  rw [IarParser.stdError]
  unfold IarParser.stdErrProcess
  have e1 : reFullMatch iarRe1 (rightTrimmed "") = none := rfl
  have e2 : reFullMatch iarRe2 (rightTrimmed "") = none := rfl
  have e3 : reFullMatch iarRe3 (rightTrimmed "") = none := rfl
  simp only [e1, e2, e3]
  unfold IarParser.contStep
  simp [show rightTrimmed "" = "" from rfl]

/-- C1: on a stderr line of the form `"<file>",<lineno> <Type>[<code>]:…`
(the third pattern, the first two not matching), `stdError` flushes the
pending task (here: nothing was pending) and starts a new pending task
with the captured file path, the captured line number and the severity
classification of `<Type>`; after the indented continuation lines are
consumed and the task is flushed, its description is the prefix
`[<code>]: ` followed by the trimmed continuation lines in order. -/
theorem stdError_file_line_diagnostic (p : IarParser) (line : String) (g : Groups)
    (cs : List String)
    (hq0 : p.lastTask = none) (hq1 : p.descriptionParts = [])
    (hq2 : p.snippets = []) (hq3 : p.filePathParts = [])
    (h1 : reFullMatch iarRe1 (rightTrimmed line) = none)
    (h2 : reFullMatch iarRe2 (rightTrimmed line) = none)
    (h3 : reFullMatch iarRe3 (rightTrimmed line) = some g)
    (hcs : ∀ c ∈ cs, ContDescLine c) :
    (p.stdError line).lastTask =
      some { type := taskType (gget 3 g), description := "", file := gget 1 g,
             line := qToInt (gget 2 g), category := TASK_CATEGORY_COMPILE, formats := [] } ∧
    (p.stdError line).lines = 1 ∧
    (p.stdError line).output = p.output ∧
    ((List.foldl IarParser.stdError (p.stdError line) cs).stdError "").output =
      p.output ++
        [({ type := taskType (gget 3 g),
            description := "[" ++ gget 4 g ++ "]: " ++
              strConcat (cs.map (fun c => qTrimmed (rightTrimmed c))),
            file := gget 1 g, line := qToInt (gget 2 g),
            category := TASK_CATEGORY_COMPILE, formats := [] }, 1)] := by
  have hhdr := stdError_re3_header p line g h1 h2 h3 hq0
  refine ⟨by rw [hhdr], by rw [hhdr], by rw [hhdr], ?_⟩
  rw [hhdr, contDesc_fold _ cs hcs rfl rfl rfl, stdError_empty_flush,
    doFlush_of_some _ _ rfl]
  simp [hq1, hq2, hq3, amendDescriptionT, appendSnippets, amendFilePathT, strConcat,
    empty_strAppend]

/-- C1 at the "No details warning" row of the unit tests: the header
line followed by one continuation line and a flushing blank line yields
exactly the expected warning task. -/
theorem stdError_file_line_diagnostic_witness :
    ((List.foldl IarParser.stdError
        (IarParser.initial.stdError "\"c:\\foo\\main.c\",63 Warning[Pe223]:")
        ["          Some warning \"foo\" bar"]).stdError "").output =
      [({ type := .Warning, description := "[Pe223]: Some warning \"foo\" bar",
          file := "c:\\foo\\main.c", line := 63,
          category := TASK_CATEGORY_COMPILE, formats := [] }, 1)] := by
  have h := stdError_file_line_diagnostic IarParser.initial
      "\"c:\\foo\\main.c\",63 Warning[Pe223]:"
      [(4, "Pe223"), (3, "Warning"), (2, "63"), (1, "c:\\foo\\main.c")]
      ["          Some warning \"foo\" bar"]
      rfl rfl rfl rfl (by decide) (by decide) (by decide)
      (by
        intro c hc
        simp only [List.mem_singleton] at hc
        subst hc
        exact ⟨by decide, by decide, by decide, by decide, by decide, by decide⟩)
  exact h.2.2.2.trans (by decide)

/-! ## C4: the split file-path diagnostic -/

/-- A continuation line consumed by the `m_expectFilePath` branch
without ending the path: no pattern matches, the right-trimmed line is
nonempty and indented, and it does not end in `]`. -/
def ContFileLine (c : String) : Prop :=
  reFullMatch iarRe1 (rightTrimmed c) = none ∧
  reFullMatch iarRe2 (rightTrimmed c) = none ∧
  reFullMatch iarRe3 (rightTrimmed c) = none ∧
  ¬ rightTrimmed c = "" ∧
  qStartsWith (rightTrimmed c) " " = true ∧
  ¬ qEndsWith (rightTrimmed c) "]" = true

/-- The indented line that closes the split path: as `ContFileLine` but
ending in `]`. -/
def EndFileLine (c : String) : Prop :=
  reFullMatch iarRe1 (rightTrimmed c) = none ∧
  reFullMatch iarRe2 (rightTrimmed c) = none ∧
  reFullMatch iarRe3 (rightTrimmed c) = none ∧
  ¬ rightTrimmed c = "" ∧
  qStartsWith (rightTrimmed c) " " = true ∧
  qEndsWith (rightTrimmed c) "]" = true

theorem contFile_step (p : IarParser) (c : String) (hc : ContFileLine c)
    (hef : p.expectFilePath = true) :
    p.stdError c =
      { p with
        childErr := p.childErr ++ [c]
        filePathParts := p.filePathParts ++ [rightTrimmed c] } := by
  obtain ⟨hr1, hr2, hr3, hne, hsp, hbr⟩ := hc
  rw [IarParser.stdError]
  unfold IarParser.stdErrProcess
  simp only [hr1, hr2, hr3]
  unfold IarParser.contStep
  simp [hne, hsp, hef, hbr]

theorem contFile_fold (p : IarParser) (ms : List String)
    (hms : ∀ c ∈ ms, ContFileLine c) (hef : p.expectFilePath = true) :
    List.foldl IarParser.stdError p ms =
      { p with
        childErr := p.childErr ++ ms
        filePathParts := p.filePathParts ++ ms.map rightTrimmed } := by
  induction ms generalizing p with
  | nil => simp
  | cons c rest ih =>
    rw [List.foldl_cons, contFile_step p c (hms c (by simp)) hef]
    rw [ih ({ p with
          childErr := p.childErr ++ [c]
          filePathParts := p.filePathParts ++ [rightTrimmed c] })
        (fun x hx => hms x (by simp [hx])) hef]
    simp

theorem endFile_step (p : IarParser) (c : String) (hc : EndFileLine c)
    (hef : p.expectFilePath = true) :
    p.stdError c =
      IarParser.doFlush
        { p with
          childErr := p.childErr ++ [c]
          filePathParts := p.filePathParts ++ [dropRight1 (rightTrimmed c)] } := by
  obtain ⟨hr1, hr2, hr3, hne, hsp, hbr⟩ := hc
  rw [IarParser.stdError]
  unfold IarParser.stdErrProcess
  simp only [hr1, hr2, hr3]
  unfold IarParser.contStep
  simp [hne, hsp, hef, hbr]

/-- C4: a stderr line of the form
`^(Error|Fatal error)[<code>]: <descr> [<path-begin>` starts file-path
accumulation: the captured path beginning (with "referenced from "
removed) is concatenated with each following indented line, every part
trimmed, up to the indented line ending in `]` (whose final `]` is
dropped); the flush triggered by that closing line emits a task whose
file is that concatenation, whose description is `[<code>]: <descr>`,
and whose line number is −1. -/
theorem stdError_split_file_path (p : IarParser) (line : String) (g : Groups)
    (ms : List String) (e : String)
    (hq0 : p.lastTask = none) (hq1 : p.descriptionParts = [])
    (hq2 : p.snippets = []) (hq3 : p.filePathParts = [])
    (h1 : reFullMatch iarRe1 (rightTrimmed line) = some g)
    (hms : ∀ c ∈ ms, ContFileLine c)
    (he : EndFileLine e) :
    (p.stdError line).lastTask =
      some { type := taskType (gget 1 g),
             description := "[" ++ gget 2 g ++ "]: " ++ gget 3 g,
             file := "", line := -1,
             category := TASK_CATEGORY_COMPILE, formats := [] } ∧
    (p.stdError line).expectFilePath = true ∧
    ((List.foldl IarParser.stdError (p.stdError line) ms).stdError e).output =
      p.output ++
        [({ type := taskType (gget 1 g),
            description := "[" ++ gget 2 g ++ "]: " ++ gget 3 g,
            file := strConcat ((qRemoveAll "referenced from " (gget 4 g) ::
              (ms.map rightTrimmed ++ [dropRight1 (rightTrimmed e)])).map qTrimmed),
            line := -1, category := TASK_CATEGORY_COMPILE, formats := [] }, 1)] := by
  have hhdr := stdError_re1_header p line g h1 hq0
  refine ⟨by rw [hhdr], by rw [hhdr], ?_⟩
  rw [hhdr, contFile_fold _ ms hms rfl, endFile_step _ e he rfl,
    doFlush_of_some _ _ rfl]
  simp [hq1, hq2, hq3, amendDescriptionT, appendSnippets, amendFilePathT, strConcat,
    strAppend_empty]

/-- C4 at the "No definition for" row of the unit tests (with the
closing bracket on the last indented line): the linker diagnostic's
split path is reassembled into the emitted task. -/
theorem stdError_split_file_path_witness :
    ((List.foldl IarParser.stdError
        (IarParser.initial.stdError
          "Error[Li005]: Some error \"foo\" [referenced from c:\\fo")
        ["         o\\bar\\mai"]).stdError "         n.c.o]").output =
      [({ type := .Error, description := "[Li005]: Some error \"foo\"",
          file := "c:\\foo\\bar\\main.c.o", line := -1,
          category := TASK_CATEGORY_COMPILE, formats := [] }, 1)] := by
  have h := stdError_split_file_path IarParser.initial
      "Error[Li005]: Some error \"foo\" [referenced from c:\\fo"
      [(4, "referenced from c:\\fo"), (3, "Some error \"foo\""), (2, "Li005"), (1, "Error")]
      ["         o\\bar\\mai"] "         n.c.o]"
      rfl rfl rfl rfl (by decide)
      (by
        intro c hc
        simp only [List.mem_singleton] at hc
        subst hc
        exact ⟨by decide, by decide, by decide, by decide, by decide, by decide⟩)
      ⟨by decide, by decide, by decide, by decide, by decide, by decide⟩
  exact h.2.2.trans (by decide)

/-! ## C3, C9, C10: the quick-fix and the id property -/

namespace QmlJS

/-- Index `i` of the AST path holds an extractable object definition:
the node is a `UiObjectDefinition`, it is not the root (there is a
previous node and it is not the `UiProgram`), and its id property is
non-empty. -/
def GoodAt (path : List Node) (i : Nat) (d : UiObjectDefinition) : Prop :=
  path.get? i = some (.objDef d) ∧ 0 < i ∧ prevIsProgram path i = false ∧
    ¬ getIdProperty (some d) = ""

theorem goodAt_lt {path : List Node} {i : Nat} {d : UiObjectDefinition}
    (h : GoodAt path i d) : i < path.length := by
  rcases List.get?_eq_some.1 h.1 with ⟨hlt, _⟩
  exact hlt

theorem matchGo_succ (path : List Node) (n : Nat) :
    matchGo path (n + 1) =
      match path.get? n with
      | some (.objDef d) =>
        if 0 < n && !prevIsProgram path n && !(getIdProperty (some d) = "") then [d]
        else matchGo path n
      | _ => matchGo path n := rfl

theorem matchGo_cons_objDef (path : List Node) (n : Nat) (d : UiObjectDefinition)
    (h : path.get? n = some (.objDef d)) :
    matchGo path (n + 1) =
      if 0 < n ∧ prevIsProgram path n = false ∧ ¬ getIdProperty (some d) = ""
      then [d] else matchGo path n := by
  rw [matchGo_succ, h]
  by_cases h0 : 0 < n <;> by_cases hp : prevIsProgram path n = false <;>
    by_cases hid : getIdProperty (some d) = "" <;>
    simp [h0, hp, hid]

theorem matchGo_cons_other (path : List Node) (n : Nat)
    (h : ∀ d, ¬ path.get? n = some (.objDef d)) :
    matchGo path (n + 1) = matchGo path n := by
  rw [matchGo_succ]
  rcases hno : path.get? n with _ | node
  · rfl
  · cases node with
    | objDef d => exact absurd hno (h d)
    | program => rfl
    | otherNode => rfl

theorem goodAt_of_get {path : List Node} {n : Nat} {d e : UiObjectDefinition}
    (hget : path.get? n = some (.objDef d)) (hg : GoodAt path n e) : e = d := by
  have := hg.1.symm.trans hget
  simpa using this

theorem succ_forall_other {path : List Node} {n : Nat}
    (hno : ∀ e, ¬ path.get? n = some (.objDef e)) :
    (∀ i d, i < n → ¬ GoodAt path i d) ↔ (∀ i d, i < n + 1 → ¬ GoodAt path i d) := by
  constructor
  · intro h i d hi hg
    rcases Nat.lt_succ_iff_lt_or_eq.1 hi with hi' | rfl
    · exact h i d hi' hg
    · exact hno d hg.1
  · intro h i d hi hg
    exact h i d (Nat.lt_succ_of_lt hi) hg

theorem succ_forall_bad {path : List Node} {n : Nat} {d : UiObjectDefinition}
    (h : path.get? n = some (.objDef d))
    (hc : ¬ (0 < n ∧ prevIsProgram path n = false ∧ ¬ getIdProperty (some d) = "")) :
    (∀ i e, i < n → ¬ GoodAt path i e) ↔ (∀ i e, i < n + 1 → ¬ GoodAt path i e) := by
  constructor
  · intro hh i e hi hg
    rcases Nat.lt_succ_iff_lt_or_eq.1 hi with hi' | rfl
    · exact hh i e hi' hg
    · obtain rfl := goodAt_of_get h hg
      exact hc ⟨hg.2.1, hg.2.2.1, hg.2.2.2⟩
  · intro hh i e hi hg
    exact hh i e (Nat.lt_succ_of_lt hi) hg

theorem matchGo_nil_iff (path : List Node) :
    ∀ n, (matchGo path n = [] ↔ ∀ i d, i < n → ¬ GoodAt path i d) := by
  intro n
  induction n with
  | zero => simp [matchGo]
  | succ n ih =>
    rcases hno : path.get? n with _ | node
    · have hne : ∀ e, ¬ path.get? n = some (.objDef e) := fun e he => by
        rw [hno] at he
        exact Option.noConfusion he
      rw [matchGo_cons_other path n hne, ih, succ_forall_other hne]
    · cases node with
      | objDef d =>
        rw [matchGo_cons_objDef path n d hno]
        by_cases hc : 0 < n ∧ prevIsProgram path n = false ∧ ¬ getIdProperty (some d) = ""
        · rw [if_pos hc]
          simp only [List.cons_ne_nil, false_iff]
          intro h
          exact h n d (Nat.lt_succ_self n) ⟨hno, hc.1, hc.2.1, hc.2.2⟩
        · rw [if_neg hc, ih, succ_forall_bad hno hc]
      | program =>
        have hne : ∀ e, ¬ path.get? n = some (.objDef e) := fun e he => by
          rw [hno] at he
          cases he
        rw [matchGo_cons_other path n hne, ih, succ_forall_other hne]
      | otherNode =>
        have hne : ∀ e, ¬ path.get? n = some (.objDef e) := fun e he => by
          rw [hno] at he
          cases he
        rw [matchGo_cons_other path n hne, ih, succ_forall_other hne]

theorem matchGo_singleton_iff (path : List Node) :
    ∀ n d, (matchGo path n = [d] ↔
      ∃ i, i < n ∧ GoodAt path i d ∧ ∀ j e, i < j → j < n → ¬ GoodAt path j e) := by
  intro n
  induction n with
  | zero => simp [matchGo]
  | succ n ih =>
    intro d
    rcases hno : path.get? n with _ | node
    · have hne : ∀ e, ¬ path.get? n = some (.objDef e) := fun e he => by
        rw [hno] at he
        exact Option.noConfusion he
      rw [matchGo_cons_other path n hne, ih]
      constructor
      · rintro ⟨i, hi, hg, hmax⟩
        refine ⟨i, Nat.lt_succ_of_lt hi, hg, fun j e hij hjn hg' => ?_⟩
        rcases Nat.lt_succ_iff_lt_or_eq.1 hjn with hj' | rfl
        · exact hmax j e hij hj' hg'
        · exact hne e hg'.1
      · rintro ⟨i, hi, hg, hmax⟩
        rcases Nat.lt_succ_iff_lt_or_eq.1 hi with hi' | rfl
        · exact ⟨i, hi', hg, fun j e hij hjn hg' => hmax j e hij (Nat.lt_succ_of_lt hjn) hg'⟩
        · exact absurd hg.1 (hne d)
    · cases node with
      | objDef d0 =>
        by_cases hc : 0 < n ∧ prevIsProgram path n = false ∧ ¬ getIdProperty (some d0) = ""
        · rw [matchGo_cons_objDef path n d0 hno, if_pos hc]
          constructor
          · intro h
            obtain rfl : d0 = d := by simpa using h
            exact ⟨n, Nat.lt_succ_self n, ⟨hno, hc.1, hc.2.1, hc.2.2⟩,
              fun j e hij hjn hg' => absurd hjn (Nat.not_lt.2 hij)⟩
          · rintro ⟨i, hi, hg, hmax⟩
            rcases Nat.lt_succ_iff_lt_or_eq.1 hi with hi' | rfl
            · exact absurd ⟨hno, hc.1, hc.2.1, hc.2.2⟩ (hmax n d0 hi' (Nat.lt_succ_self n))
            · obtain rfl := goodAt_of_get hno hg
              rfl
        · rw [matchGo_cons_objDef path n d0 hno, if_neg hc, ih]
          constructor
          · rintro ⟨i, hi, hg, hmax⟩
            refine ⟨i, Nat.lt_succ_of_lt hi, hg, fun j e hij hjn hg' => ?_⟩
            rcases Nat.lt_succ_iff_lt_or_eq.1 hjn with hj' | rfl
            · exact hmax j e hij hj' hg'
            · obtain rfl := goodAt_of_get hno hg'
              exact hc ⟨hg'.2.1, hg'.2.2.1, hg'.2.2.2⟩
          · rintro ⟨i, hi, hg, hmax⟩
            rcases Nat.lt_succ_iff_lt_or_eq.1 hi with hi' | rfl
            · exact ⟨i, hi', hg, fun j e hij hjn hg' => hmax j e hij (Nat.lt_succ_of_lt hjn) hg'⟩
            · obtain rfl := goodAt_of_get hno hg
              exact absurd ⟨hg.2.1, hg.2.2.1, hg.2.2.2⟩ hc
      | program =>
        have hne : ∀ e, ¬ path.get? n = some (.objDef e) := fun e he => by
          rw [hno] at he
          cases he
        rw [matchGo_cons_other path n hne, ih]
        constructor
        · rintro ⟨i, hi, hg, hmax⟩
          refine ⟨i, Nat.lt_succ_of_lt hi, hg, fun j e hij hjn hg' => ?_⟩
          rcases Nat.lt_succ_iff_lt_or_eq.1 hjn with hj' | rfl
          · exact hmax j e hij hj' hg'
          · exact hne e hg'.1
        · rintro ⟨i, hi, hg, hmax⟩
          rcases Nat.lt_succ_iff_lt_or_eq.1 hi with hi' | rfl
          · exact ⟨i, hi', hg, fun j e hij hjn hg' => hmax j e hij (Nat.lt_succ_of_lt hjn) hg'⟩
          · exact absurd hg.1 (hne d)
      | otherNode =>
        have hne : ∀ e, ¬ path.get? n = some (.objDef e) := fun e he => by
          rw [hno] at he
          cases he
        rw [matchGo_cons_other path n hne, ih]
        constructor
        · rintro ⟨i, hi, hg, hmax⟩
          refine ⟨i, Nat.lt_succ_of_lt hi, hg, fun j e hij hjn hg' => ?_⟩
          rcases Nat.lt_succ_iff_lt_or_eq.1 hjn with hj' | rfl
          · exact hmax j e hij hj' hg'
          · exact hne e hg'.1
        · rintro ⟨i, hi, hg, hmax⟩
          rcases Nat.lt_succ_iff_lt_or_eq.1 hi with hi' | rfl
          · exact ⟨i, hi', hg, fun j e hij hjn hg' => hmax j e hij (Nat.lt_succ_of_lt hjn) hg'⟩
          · exact absurd hg.1 (hne d)

theorem matchGo_shape (path : List Node) :
    ∀ n, matchGo path n = [] ∨ ∃ d, matchGo path n = [d] := by
  intro n
  induction n with
  | zero => exact Or.inl rfl
  | succ n ih =>
    rcases hno : path.get? n with _ | node
    · rw [matchGo_cons_other path n (fun e he => by rw [hno] at he; exact Option.noConfusion he)]
      exact ih
    · cases node with
      | objDef d =>
        rw [matchGo_cons_objDef path n d hno]
        by_cases hc : 0 < n ∧ prevIsProgram path n = false ∧ ¬ getIdProperty (some d) = ""
        · rw [if_pos hc]
          exact Or.inr ⟨d, rfl⟩
        · rw [if_neg hc]
          exact ih
      | program =>
        rw [matchGo_cons_other path n (fun e he => by rw [hno] at he; cases he)]
        exact ih
      | otherNode =>
        rw [matchGo_cons_other path n (fun e he => by rw [hno] at he; cases he)]
        exact ih

theorem matchGo_mem (path : List Node) :
    ∀ n d, d ∈ matchGo path n → ∃ i, GoodAt path i d := by
  intro n
  induction n with
  | zero => intro d h; cases h
  | succ n ih =>
    intro d h
    rcases hno : path.get? n with _ | node
    · rw [matchGo_cons_other path n
        (fun e he => by rw [hno] at he; exact Option.noConfusion he)] at h
      exact ih d h
    · cases node with
      | objDef d0 =>
        rw [matchGo_cons_objDef path n d0 hno] at h
        by_cases hc : 0 < n ∧ prevIsProgram path n = false ∧ ¬ getIdProperty (some d0) = ""
        · rw [if_pos hc] at h
          obtain rfl : d = d0 := by simpa using h
          exact ⟨n, hno, hc.1, hc.2.1, hc.2.2⟩
        · rw [if_neg hc] at h
          exact ih d h
      | program =>
        rw [matchGo_cons_other path n (fun e he => by rw [hno] at he; cases he)] at h
        exact ih d h
      | otherNode =>
        rw [matchGo_cons_other path n (fun e he => by rw [hno] at he; cases he)] at h
        exact ih d h

/-- C3: `ComponentFromObjectDef::match` returns exactly one "Extract
Component" operation precisely when some path index holds a
`UiObjectDefinition` that is not the root and has a non-empty id
property; the operation is built from the innermost such node (the
scan runs from the end of the path), and otherwise the result is
empty.  The result never has more than one element. -/
theorem matchOps_extract_component (path : List Node) :
    (matchOps path = [] ↔ ∀ i d, ¬ GoodAt path i d) ∧
    (∀ d, matchOps path = [d] ↔
      ∃ i, GoodAt path i d ∧ ∀ j e, i < j → ¬ GoodAt path j e) ∧
    (matchOps path).length ≤ 1 := by
  refine ⟨?_, ?_, ?_⟩
  · unfold matchOps
    rw [matchGo_nil_iff]
    constructor
    · intro h i d hg
      exact h i d (goodAt_lt hg) hg
    · intro h i d _ hg
      exact h i d hg
  · intro d
    unfold matchOps
    rw [matchGo_singleton_iff]
    constructor
    · rintro ⟨i, _, hg, hmax⟩
      exact ⟨i, hg, fun j e hij hg' => hmax j e hij (goodAt_lt hg') hg'⟩
    · rintro ⟨i, hg, hmax⟩
      exact ⟨i, goodAt_lt hg, hg, fun j e hij _ hg' => hmax j e hij hg'⟩
  · unfold matchOps
    rcases matchGo_shape path path.length with h | ⟨d, h⟩
    · rw [h]
      exact Nat.zero_le 1
    · rw [h]
      exact Nat.le_refl 1

/-- C10: any object definition an `Operation` is built from by `match`
has a non-empty id property, so `componentName[0]` in
`Operation::createChanges` is an in-bounds access. -/
theorem operation_componentName_nonempty (path : List Node) (d : UiObjectDefinition)
    (h : d ∈ matchOps path) :
    ¬ getIdProperty (some d) = "" ∧ 0 < (getIdProperty (some d)).length := by
  obtain ⟨i, hg⟩ := matchGo_mem path path.length d h
  refine ⟨hg.2.2.2, ?_⟩
  rcases hs : getIdProperty (some d) with ⟨l⟩
  cases l with
  | nil => exact absurd hs hg.2.2.2
  | cons c cs => simp [String.length]

/-- A member binding `id` to the identifier `rect`. -/
def sampleIdMember : UiObjectMember :=
  .scriptBinding (some (.mk (some "id") none)) (some (.exprStmt (.ident "rect")))

def sampleDef : UiObjectDefinition := ⟨some ⟨[sampleIdMember]⟩⟩

/-- A path whose innermost node is a non-root object definition with an
id. -/
def samplePath : List Node := [.program, .objDef ⟨none⟩, .objDef sampleDef]

/-- C10 at a concrete path: the single operation produced by `match`
carries a definition whose id property is the non-empty `"rect"`. -/
theorem operation_componentName_nonempty_witness :
    ¬ getIdProperty (some sampleDef) = "" ∧ 0 < (getIdProperty (some sampleDef)).length :=
  operation_componentName_nonempty samplePath sampleDef
    (by rw [show matchOps samplePath = [sampleDef] from rfl]
        exact List.mem_singleton.mpr rfl)

/-- The member shape C9 describes: a script binding whose qualified id
is the single component `id` bound to an identifier expression or a
string literal, together with the value `getIdProperty` should return
for it. -/
def idBindingValue : UiObjectMember → Option String
  | .scriptBinding (some (.mk (some nm) none)) (some (.exprStmt e)) =>
    if nm = "id" then
      match e with
      | .ident n => some n
      | .strLit v => some v
      | .otherExpr => none
    else none
  | _ => none

/-- The member list `getIdProperty` iterates over: empty for a null
definition or a null initializer. -/
def membersOf : Option UiObjectDefinition → List UiObjectMember
  | none => []
  | some d =>
    match d.initializer with
    | none => []
    | some ini => ini.members

theorem getIdLoop_findSome (l : List UiObjectMember) :
    getIdLoop l = (l.findSome? idBindingValue).getD "" := by
  induction l with
  | nil => rfl
  | cons m rest ih =>
    cases m with
    | otherMember => simpa [getIdLoop, idBindingValue, List.findSome?_cons] using ih
    | scriptBinding qid stmt =>
      cases qid with
      | none => simpa [getIdLoop, idBindingValue, List.findSome?_cons] using ih
      | some q =>
        cases q with
        | mk name next =>
          cases next with
          | some q2 => simpa [getIdLoop, idBindingValue, List.findSome?_cons] using ih
          | none =>
            cases name with
            | none => simpa [getIdLoop, idBindingValue, List.findSome?_cons] using ih
            | some nm =>
              cases stmt with
              | none => simpa [getIdLoop, idBindingValue, List.findSome?_cons] using ih
              | some st =>
                cases st with
                | otherStmt => simpa [getIdLoop, idBindingValue, List.findSome?_cons] using ih
                | exprStmt e =>
                  by_cases hnm : nm = "id"
                  · subst hnm
                    cases e with
                    | ident n => simp [getIdLoop, idBindingValue, List.findSome?_cons]
                    | strLit v => simp [getIdLoop, idBindingValue, List.findSome?_cons]
                    | otherExpr =>
                      simpa [getIdLoop, idBindingValue, List.findSome?_cons] using ih
                  · simpa [getIdLoop, idBindingValue, List.findSome?_cons, hnm] using ih

/-- C9: `getIdProperty` returns the value of the first member of the
id-binding shape (identifier name or string value), the empty string
when no such member exists — in particular for a null definition or a
null initializer — and skips bindings of any other shape. -/
theorem getIdProperty_first_id_binding (od : Option UiObjectDefinition) :
    getIdProperty od = ((membersOf od).findSome? idBindingValue).getD "" := by
  cases od with
  | none => rfl
  | some d =>
    cases hd : d.initializer with
    | none => simp [getIdProperty, membersOf, hd]
    | some ini => simp [getIdProperty, membersOf, hd, getIdLoop_findSome]

end QmlJS
